import Mathlib

/-!
Shallow embedding of the Figgie trading-game engine
(`src/custom_types.py`, `src/order.py`, `src/player.py`,
`src/game_controller.py`).

Players are identified by their index in `GameController.players`
(`Fin n`); Python object identity (`is` / default `==` on `Player`)
becomes equality of indices.  Machine integers are `Int`.  The
`print` / event-bus side effects carry no game state and are omitted.
`raise ValueError` branches leave the state unmodified at the point of
the raise, so the corresponding branches return the input state
unchanged (noted inline at each such branch).
-/

/-- `Suit` enum from `custom_types.py`. -/
inductive Suit where
  | hearts
  | diamonds
  | clubs
  | spades
deriving DecidableEq, Repr, Fintype

/-- Iteration order of `for suit in Suit` (Python enum definition order). -/
def Suit.all : List Suit := [.hearts, .diamonds, .clubs, .spades]

inductive Color where
  | red
  | black
deriving DecidableEq, Repr

/-- `Suit.color` property: diamonds and hearts are red, clubs and spades black. -/
def Suit.color : Suit → Color
  | .hearts => .red
  | .diamonds => .red
  | _ => .black

/-- `Suit.get_same_color_suit` (the `color_map` dict in `custom_types.py`). -/
def Suit.sameColorSuit : Suit → Suit
  | .hearts => .diamonds
  | .diamonds => .hearts
  | .clubs => .spades
  | .spades => .clubs

/-- Side of an `Order` (`side in ["bid", "ask"]`, validated at construction). -/
inductive Side where
  | bid
  | ask
deriving DecidableEq, Repr

/-- `OrderEntry` TypedDict: `{price: int, player: Player | None}`;
the player is an index into the players list. -/
structure OrderEntry (n : Nat) where
  price : Int
  player : Option (Fin n)
deriving DecidableEq, Repr

/-- `OrderBook` TypedDict: `{bid, ask, last_traded_price}`. -/
structure BookEntry (n : Nat) where
  bid : OrderEntry n
  ask : OrderEntry n
  last_traded_price : Int
deriving DecidableEq, Repr

/-- `Order` from `order.py`: `{suit, side, price, player}`. -/
structure Order (n : Nat) where
  suit : Suit
  side : Side
  price : Int
  player : Fin n
deriving DecidableEq, Repr

/-- The mutable per-`Player` fields from `player.py`: `dollars` and the
per-suit `inventory` dict. -/
structure PlayerState where
  dollars : Int
  inventory : Suit → Int

/-- Record of one executed trade (the pair published as `TradeExecutedEvent`);
kept as a log so that "exactly one trade happened" is observable. -/
structure TradeRec (n : Nat) where
  receiver : Fin n
  giver : Fin n
  suit : Suit
  price : Int
deriving DecidableEq, Repr

/-- The state owned by `GameController`: the players list, the per-suit
order book, the pot, the goal suit, plus the log of executed trades. -/
structure GameState (n : Nat) where
  players : Fin n → PlayerState
  book : Suit → BookEntry n
  pot : Int
  goalSuit : Option Suit
  trades : List (TradeRec n)

/-- Sentinel no-bid entry `(−999, None)`. -/
def sentinelBid (n : Nat) : OrderEntry n := ⟨-999, none⟩

/-- Sentinel no-ask entry `(999, None)`. -/
def sentinelAsk (n : Nat) : OrderEntry n := ⟨999, none⟩

/-- In-place mutation of one player object, as a functional update of the
players map. -/
def GameState.updatePlayer {n : Nat} (g : GameState n) (i : Fin n)
    (f : PlayerState → PlayerState) : GameState n :=
  { g with players := Function.update g.players i (f (g.players i)) }

/-- `GameController._trade(receiver, giver, suit, price)`:
validate receiver cash and giver inventory (each failing check returns with
no mutation); otherwise move cash and one unit of inventory (receiver first,
then giver, as in the source), reset the suit's book to sentinels
(`_reset_suit_orderbook`) and record `last_traded_price`, log the trade
(the `TradeExecutedEvent`), then cascade-cancel every *other* suit's
resting bid held by the receiver whose price exceeds the receiver's
post-trade dollars. -/
def trade {n : Nat} (g : GameState n) (receiver giver : Fin n)
    (suit : Suit) (price : Int) : GameState n :=
  if (g.players receiver).dollars < price then g
  else if (g.players giver).inventory suit < 1 then g
  else
    let g1 := g.updatePlayer receiver fun p =>
      { dollars := p.dollars - price
        inventory := Function.update p.inventory suit (p.inventory suit + 1) }
    let g2 := g1.updatePlayer giver fun p =>
      { dollars := p.dollars + price
        inventory := Function.update p.inventory suit (p.inventory suit - 1) }
    let freshEntry : BookEntry n := ⟨sentinelBid n, sentinelAsk n, price⟩
    let rec1 : TradeRec n := ⟨receiver, giver, suit, price⟩
    let g3 := { g2 with
      book := Function.update g2.book suit freshEntry
      trades := g2.trades ++ [rec1] }
    { g3 with
      book := fun s =>
        if s = suit then g3.book s
        else if (g3.book s).bid.player = some receiver ∧
                (g3.players receiver).dollars < (g3.book s).bid.price then
          { g3.book s with bid := sentinelBid n }
        else g3.book s }

/-- `GameController.add_order(order)`.  The two `raise ValueError` branches
("Asker is None" / "Bidder is None") happen before any mutation, so they
return the state unchanged. -/
def addOrder {n : Nat} (g : GameState n) (o : Order n) : GameState n :=
  match o.side with
  | .bid =>
    let e := g.book o.suit
    -- reject: price ≤ current bid and the resting bidder is another player
    if o.price ≤ e.bid.price ∧ e.bid.player ≠ some o.player then g
    -- crossing ask by another player (None counts as "is not order.player")
    else if e.ask.price ≤ o.price ∧ e.ask.player ≠ some o.player then
      match e.ask.player with
      | none => g   -- raise ValueError("Asker is None"): nothing mutated
      | some asker => trade g o.player asker o.suit (min o.price e.ask.price)
    else
      let e' : BookEntry n := { e with bid := ⟨o.price, some o.player⟩ }
      { g with book := Function.update g.book o.suit e' }
  | .ask =>
    -- reject: the player holds no unit of the suit
    if (g.players o.player).inventory o.suit < 1 then g
    else
      let e := g.book o.suit
      -- reject: price ≥ current ask and the resting asker is another player
      if e.ask.price ≤ o.price ∧ e.ask.player ≠ some o.player then g
      -- crossing bid by another player
      else if o.price ≤ e.bid.price ∧ e.bid.player ≠ some o.player then
        match e.bid.player with
        | none => g   -- raise ValueError("Bidder is None"): nothing mutated
        | some bidder => trade g bidder o.player o.suit (min o.price e.bid.price)
      else
        let e' : BookEntry n := { e with ask := ⟨o.price, some o.player⟩ }
        { g with book := Function.update g.book o.suit e' }

/-- The scan in `end_round`: `for player in self.players`, keep the first
player whose goal-suit holding strictly exceeds the running maximum
(initially `winner = None`, `max_cards = 0`). -/
def winnerScanStep {n : Nat} (g : GameState n) (goal : Suit)
    (acc : Option (Fin n) × Int) (i : Fin n) : Option (Fin n) × Int :=
  if acc.2 < (g.players i).inventory goal then (some i, (g.players i).inventory goal)
  else acc

def findWinner {n : Nat} (g : GameState n) (goal : Suit) : Option (Fin n) × Int :=
  (List.finRange n).foldl (winnerScanStep g goal) (none, 0)

/-- `GameController.end_round()`: `none` models the two
`raise ValueError` branches ("Goal suit is not set" / "No winner found",
both before any pot is paid); otherwise the winner's dollars grow by the
pot and the pot resets to 0. -/
def endRound {n : Nat} (g : GameState n) : Option (GameState n) :=
  match g.goalSuit with
  | none => none
  | some goal =>
    match (findWinner g goal).1 with
    | none => none
    | some w =>
      some { (g.updatePlayer w fun p => { p with dollars := p.dollars + g.pot })
             with pot := 0 }

/-- Cards per player in `_distribute_cards` (10 for 4 players, 8 for 5). -/
def perPlayer (n : Nat) : Nat := if n = 4 then 10 else 8

/-- State after `GameController.__init__` for `n` players: each player's
inventory comes from dealing `rdeck` — the shuffled deck in *pop order*
(`deck.pop()` removes the last card, so player 0 receives the first
`perPlayer n` elements of `rdeck`, player 1 the next block, and so on);
then every player's dollars are set to 100 and the 40-dollar ante moves
into the pot; the book starts at the sentinels with `last_traded_price` 0. -/
def initState (n : Nat) (rdeck : List Suit) (goal : Suit) : GameState n :=
  { players := fun i =>
      { dollars := 60
        inventory := fun s =>
          (((rdeck.drop (i.val * perPlayer n)).take (perPlayer n)).count s : Int) }
    book := fun _ => ⟨sentinelBid n, sentinelAsk n, 0⟩
    pot := 40 * n
    goalSuit := some goal
    trades := [] }

/-- The suit-count dict built by `_init_cards` step 2:
`{others[0]: 10, others[1]: 10, others[2]: 8, suit12: 12}`, where `others`
is the shuffled list of the three non-12-card suits. -/
def suitCountsOf (suit12 : Suit) (others : List Suit) : Suit → Nat :=
  fun s =>
    if s = suit12 then 12
    else if others.get? 0 = some s then 10
    else if others.get? 1 = some s then 10
    else 8

/-- `_init_cards` step 3: the first suit in enum order of the same color as
the 12-card suit and distinct from it becomes the goal suit. -/
def goalOf (suit12 : Suit) : Option Suit :=
  Suit.all.find? fun s => s.color == suit12.color && s != suit12

/-- One externally driven step of the engine: an `add_order` call, a direct
`_trade` call, or an `end_round` call (which leaves the state unchanged
when it raises). -/
inductive Op (n : Nat) where
  | submit (o : Order n)
  | doTrade (receiver giver : Fin n) (suit : Suit) (price : Int)
  | settle

def applyOp {n : Nat} (g : GameState n) : Op n → GameState n
  | .submit o => addOrder g o
  | .doTrade r gv s p => trade g r gv s p
  | .settle => (endRound g).getD g

def run {n : Nat} (g : GameState n) (ops : List (Op n)) : GameState n :=
  ops.foldl applyOp g

/-- Sum of all players' dollars. -/
def cashSum {n : Nat} (g : GameState n) : Int :=
  Finset.univ.sum fun i => (g.players i).dollars

/-- Sum of all players' holdings of suit `s`. -/
def invSum {n : Nat} (g : GameState n) (s : Suit) : Int :=
  Finset.univ.sum fun i => (g.players i).inventory s

/-! ### Helper lemmas about `trade` -/

lemma trade_of_cash {n : Nat} {g : GameState n} {r gv : Fin n} {s : Suit} {p : Int}
    (h : (g.players r).dollars < p) : trade g r gv s p = g := by
  simp [trade, h]

lemma trade_of_inv {n : Nat} {g : GameState n} {r gv : Fin n} {s : Suit} {p : Int}
    (h1 : ¬ (g.players r).dollars < p) (h2 : (g.players gv).inventory s < 1) :
    trade g r gv s p = g := by
  simp [trade, h1, h2]

/-- The post-trade players map, spelled out. -/
def tradedPlayers {n : Nat} (g : GameState n) (r gv : Fin n) (s : Suit) (p : Int) :
    Fin n → PlayerState :=
  let P1 := Function.update g.players r
    ⟨(g.players r).dollars - p,
     Function.update (g.players r).inventory s ((g.players r).inventory s + 1)⟩
  Function.update P1 gv
    ⟨(P1 gv).dollars + p, Function.update (P1 gv).inventory s ((P1 gv).inventory s - 1)⟩

lemma trade_players_eq {n : Nat} {g : GameState n} {r gv : Fin n} {s : Suit} {p : Int}
    (h1 : ¬ (g.players r).dollars < p) (h2 : ¬ (g.players gv).inventory s < 1) :
    (trade g r gv s p).players = tradedPlayers g r gv s p := by
  simp only [trade, if_neg h1, if_neg h2, GameState.updatePlayer, tradedPlayers]

lemma trade_trades_eq {n : Nat} {g : GameState n} {r gv : Fin n} {s : Suit} {p : Int}
    (h1 : ¬ (g.players r).dollars < p) (h2 : ¬ (g.players gv).inventory s < 1) :
    (trade g r gv s p).trades = g.trades ++ [⟨r, gv, s, p⟩] := by
  simp only [trade, if_neg h1, if_neg h2, GameState.updatePlayer]

lemma trade_pot_eq {n : Nat} (g : GameState n) (r gv : Fin n) (s : Suit) (p : Int) :
    (trade g r gv s p).pot = g.pot := by
  unfold trade
  split
  · rfl
  · split
    · rfl
    · rfl

lemma trade_goalSuit_eq {n : Nat} (g : GameState n) (r gv : Fin n) (s : Suit) (p : Int) :
    (trade g r gv s p).goalSuit = g.goalSuit := by
  unfold trade
  split
  · rfl
  · split
    · rfl
    · rfl

lemma trade_book_traded {n : Nat} {g : GameState n} {r gv : Fin n} {s : Suit} {p : Int}
    (h1 : ¬ (g.players r).dollars < p) (h2 : ¬ (g.players gv).inventory s < 1) :
    (trade g r gv s p).book s = ⟨sentinelBid n, sentinelAsk n, p⟩ := by
  simp only [trade, if_neg h1, if_neg h2, GameState.updatePlayer]
  simp

lemma trade_book_other {n : Nat} {g : GameState n} {r gv : Fin n} {s : Suit} {p : Int}
    (h1 : ¬ (g.players r).dollars < p) (h2 : ¬ (g.players gv).inventory s < 1)
    {s' : Suit} (hs : s' ≠ s) :
    (trade g r gv s p).book s' =
      if (g.book s').bid.player = some r ∧
         (tradedPlayers g r gv s p r).dollars < (g.book s').bid.price then
        { g.book s' with bid := sentinelBid n }
      else g.book s' := by
  simp only [trade, if_neg h1, if_neg h2, GameState.updatePlayer]
  simp only [if_neg hs, Function.update_noteq hs]
  rfl

/-! ### Branch lemmas for `addOrder` -/

lemma addOrder_bid_reject {n : Nat} (g : GameState n) (c : Suit) (p : Int) (b : Fin n)
    (h1 : p ≤ (g.book c).bid.price ∧ (g.book c).bid.player ≠ some b) :
    addOrder g ⟨c, .bid, p, b⟩ = g := by
  simp only [addOrder, if_pos h1]

lemma addOrder_bid_raise {n : Nat} (g : GameState n) (c : Suit) (p : Int) (b : Fin n)
    (h1 : ¬(p ≤ (g.book c).bid.price ∧ (g.book c).bid.player ≠ some b))
    (h2 : (g.book c).ask.price ≤ p ∧ (g.book c).ask.player ≠ some b)
    (hnone : (g.book c).ask.player = none) :
    addOrder g ⟨c, .bid, p, b⟩ = g := by
  simp only [addOrder, if_neg h1]
  rw [if_pos h2, hnone]

lemma addOrder_bid_cross {n : Nat} (g : GameState n) (c : Suit) (p : Int) (b : Fin n)
    (asker : Fin n)
    (h1 : ¬(p ≤ (g.book c).bid.price ∧ (g.book c).bid.player ≠ some b))
    (h2 : (g.book c).ask.price ≤ p ∧ (g.book c).ask.player ≠ some b)
    (ha : (g.book c).ask.player = some asker) :
    addOrder g ⟨c, .bid, p, b⟩ = trade g b asker c (min p (g.book c).ask.price) := by
  simp only [addOrder, if_neg h1]
  rw [if_pos h2, ha]

lemma addOrder_bid_rest {n : Nat} (g : GameState n) (c : Suit) (p : Int) (b : Fin n)
    (h1 : ¬(p ≤ (g.book c).bid.price ∧ (g.book c).bid.player ≠ some b))
    (h2 : ¬((g.book c).ask.price ≤ p ∧ (g.book c).ask.player ≠ some b)) :
    addOrder g ⟨c, .bid, p, b⟩ = { g with book := Function.update g.book c { g.book c with bid := ⟨p, some b⟩ } } := by
  simp only [addOrder, if_neg h1, if_neg h2]

lemma addOrder_ask_noinv {n : Nat} (g : GameState n) (c : Suit) (p : Int) (a : Fin n)
    (h0 : (g.players a).inventory c < 1) :
    addOrder g ⟨c, .ask, p, a⟩ = g := by
  simp only [addOrder, if_pos h0]

lemma addOrder_ask_reject {n : Nat} (g : GameState n) (c : Suit) (p : Int) (a : Fin n)
    (h0 : ¬(g.players a).inventory c < 1)
    (h1 : (g.book c).ask.price ≤ p ∧ (g.book c).ask.player ≠ some a) :
    addOrder g ⟨c, .ask, p, a⟩ = g := by
  simp only [addOrder, if_neg h0, if_pos h1]

lemma addOrder_ask_raise {n : Nat} (g : GameState n) (c : Suit) (p : Int) (a : Fin n)
    (h0 : ¬(g.players a).inventory c < 1)
    (h1 : ¬((g.book c).ask.price ≤ p ∧ (g.book c).ask.player ≠ some a))
    (h2 : p ≤ (g.book c).bid.price ∧ (g.book c).bid.player ≠ some a)
    (hnone : (g.book c).bid.player = none) :
    addOrder g ⟨c, .ask, p, a⟩ = g := by
  simp only [addOrder, if_neg h0, if_neg h1]
  rw [if_pos h2, hnone]

lemma addOrder_ask_cross {n : Nat} (g : GameState n) (c : Suit) (p : Int) (a : Fin n)
    (bidder : Fin n)
    (h0 : ¬(g.players a).inventory c < 1)
    (h1 : ¬((g.book c).ask.price ≤ p ∧ (g.book c).ask.player ≠ some a))
    (h2 : p ≤ (g.book c).bid.price ∧ (g.book c).bid.player ≠ some a)
    (hb : (g.book c).bid.player = some bidder) :
    addOrder g ⟨c, .ask, p, a⟩ = trade g bidder a c (min p (g.book c).bid.price) := by
  simp only [addOrder, if_neg h0, if_neg h1]
  rw [if_pos h2, hb]

lemma addOrder_ask_rest {n : Nat} (g : GameState n) (c : Suit) (p : Int) (a : Fin n)
    (h0 : ¬(g.players a).inventory c < 1)
    (h1 : ¬((g.book c).ask.price ≤ p ∧ (g.book c).ask.player ≠ some a))
    (h2 : ¬(p ≤ (g.book c).bid.price ∧ (g.book c).bid.player ≠ some a)) :
    addOrder g ⟨c, .ask, p, a⟩ = { g with book := Function.update g.book c { g.book c with ask := ⟨p, some a⟩ } } := by
  simp only [addOrder, if_neg h0, if_neg h1, if_neg h2]

/-! ### Book-shape invariant -/

/-- Whenever a suit's book has a non-sentinel resting bid and a non-sentinel
resting ask held by *different* players, the bid price lies strictly below
the ask price. -/
def BookWF {n : Nat} (g : GameState n) : Prop :=
  ∀ (s : Suit) (i j : Fin n), (g.book s).bid.player = some i →
    (g.book s).ask.player = some j → i ≠ j →
    (g.book s).bid.price < (g.book s).ask.price

lemma bookWF_of_book_eq {n : Nat} {g g' : GameState n} (hb : g'.book = g.book)
    (hg : BookWF g) : BookWF g' := by
  intro s i j h1 h2 hij
  rw [hb] at h1 h2 ⊢
  exact hg s i j h1 h2 hij

lemma bookWF_trade {n : Nat} {g : GameState n} (hg : BookWF g)
    (r gv : Fin n) (s : Suit) (p : Int) : BookWF (trade g r gv s p) := by
  by_cases h1 : (g.players r).dollars < p
  · rw [trade_of_cash h1]; exact hg
  by_cases h2 : (g.players gv).inventory s < 1
  · rw [trade_of_inv h1 h2]; exact hg
  intro s' i j hb ha hij
  by_cases hs : s' = s
  · subst hs
    rw [trade_book_traded h1 h2] at hb
    simp [sentinelBid] at hb
  · rw [trade_book_other h1 h2 hs] at hb ha ⊢
    split_ifs at hb ha ⊢ with hc
    · simp [sentinelBid] at hb
    · exact hg s' i j hb ha hij

lemma bookWF_addOrder {n : Nat} {g : GameState n} (hg : BookWF g) (o : Order n) :
    BookWF (addOrder g o) := by
  obtain ⟨c, side, p, b⟩ := o
  cases side
  case bid =>
    by_cases h1 : p ≤ (g.book c).bid.price ∧ (g.book c).bid.player ≠ some b
    · rw [addOrder_bid_reject g c p b h1]; exact hg
    by_cases h2 : (g.book c).ask.price ≤ p ∧ (g.book c).ask.player ≠ some b
    · cases hap : (g.book c).ask.player with
      | none => rw [addOrder_bid_raise g c p b h1 h2 hap]; exact hg
      | some asker =>
        rw [addOrder_bid_cross g c p b asker h1 h2 hap]
        exact bookWF_trade hg b asker c (min p (g.book c).ask.price)
    · rw [addOrder_bid_rest g c p b h1 h2]
      intro s' i j hbid hask hij
      by_cases hs : s' = c
      · rw [hs] at hbid hask ⊢
        simp only [Function.update_same] at hbid hask ⊢
        have hib : i = b := by
          have := hbid
          simp at this
          exact this.symm
        push_neg at h2
        have hja : (g.book c).ask.player = some j := hask
        have hne : (g.book c).ask.player ≠ some b := by
          rw [hja]
          intro hcon
          apply hij
          rw [hib]
          exact (Option.some.inj hcon).symm
        have := mt (fun hle => h2 hle) (by simpa using hne)
        push_neg at this
        simpa using this
      · simp only [Function.update_noteq hs] at hbid hask ⊢
        exact hg s' i j hbid hask hij
  case ask =>
    by_cases h0 : (g.players b).inventory c < 1
    · rw [addOrder_ask_noinv g c p b h0]; exact hg
    by_cases h1 : (g.book c).ask.price ≤ p ∧ (g.book c).ask.player ≠ some b
    · rw [addOrder_ask_reject g c p b h0 h1]; exact hg
    by_cases h2 : p ≤ (g.book c).bid.price ∧ (g.book c).bid.player ≠ some b
    · cases hbp : (g.book c).bid.player with
      | none => rw [addOrder_ask_raise g c p b h0 h1 h2 hbp]; exact hg
      | some bidder =>
        rw [addOrder_ask_cross g c p b bidder h0 h1 h2 hbp]
        exact bookWF_trade hg bidder b c (min p (g.book c).bid.price)
    · rw [addOrder_ask_rest g c p b h0 h1 h2]
      intro s' i j hbid hask hij
      by_cases hs : s' = c
      · rw [hs] at hbid hask ⊢
        simp only [Function.update_same] at hbid hask ⊢
        have hjb : j = b := by
          have := hask
          simp at this
          exact this.symm
        push_neg at h2
        have hib : (g.book c).bid.player = some i := hbid
        have hne : (g.book c).bid.player ≠ some b := by
          rw [hib]
          intro hcon
          apply hij
          rw [hjb]
          exact Option.some.inj hcon
        have := mt (fun hle => h2 hle) (by simpa using hne)
        push_neg at this
        simpa using this
      · simp only [Function.update_noteq hs] at hbid hask ⊢
        exact hg s' i j hbid hask hij

lemma endRound_some_fields {n : Nat} {g g' : GameState n} (h : endRound g = some g') :
    g'.book = g.book ∧ g'.goalSuit = g.goalSuit ∧ g'.trades = g.trades ∧ g'.pot = 0 := by
  unfold endRound at h
  split at h
  · exact absurd h (by simp)
  · split at h
    · exact absurd h (by simp)
    · have := Option.some.inj h
      subst this
      exact ⟨rfl, rfl, rfl, rfl⟩

lemma bookWF_applyOp {n : Nat} {g : GameState n} (hg : BookWF g) (op : Op n) :
    BookWF (applyOp g op) := by
  cases op with
  | submit o => exact bookWF_addOrder hg o
  | doTrade r gv s p => exact bookWF_trade hg r gv s p
  | settle =>
    cases he : endRound g with
    | none => simpa [applyOp, he] using hg
    | some g' =>
      have hb := (endRound_some_fields he).1
      simp only [applyOp, he, Option.getD_some]
      exact bookWF_of_book_eq hb hg

lemma bookWF_run {n : Nat} {g : GameState n} (hg : BookWF g) (ops : List (Op n)) :
    BookWF (run g ops) := by
  induction ops generalizing g with
  | nil => exact hg
  | cons op t ih => exact ih (bookWF_applyOp hg op)

/-! ### Conservation helpers -/

lemma sum_comp_update {n : Nat} (f : Fin n → PlayerState) (r : Fin n) (p : PlayerState)
    (h : PlayerState → Int) :
    (Finset.univ.sum fun i => h (Function.update f r p i)) =
      (Finset.univ.sum fun i => h (f i)) + (h p - h (f r)) := by
  have key : (fun i => h (Function.update f r p i)) =
      Function.update (fun i => h (f i)) r (h p) := by
    funext i
    by_cases hi : i = r
    · subst hi; simp
    · simp [Function.update_noteq hi]
  rw [key, Finset.sum_update_of_mem (Finset.mem_univ r),
    Finset.sdiff_singleton_eq_erase,
    ← Finset.add_sum_erase Finset.univ (fun i => h (f i)) (Finset.mem_univ r)]
  ring

lemma dollars_sum_update {n : Nat} (f : Fin n → PlayerState) (r : Fin n) (p : PlayerState) :
    (Finset.univ.sum fun i => (Function.update f r p i).dollars) =
      (Finset.univ.sum fun i => (f i).dollars) + (p.dollars - (f r).dollars) :=
  sum_comp_update f r p fun ps => ps.dollars

lemma inv_sum_update {n : Nat} (f : Fin n → PlayerState) (r : Fin n) (p : PlayerState)
    (s0 : Suit) :
    (Finset.univ.sum fun i => (Function.update f r p i).inventory s0) =
      (Finset.univ.sum fun i => (f i).inventory s0) +
        (p.inventory s0 - (f r).inventory s0) :=
  sum_comp_update f r p fun ps => ps.inventory s0

lemma cashSum_trade {n : Nat} (g : GameState n) (r gv : Fin n) (s : Suit) (p : Int) :
    cashSum (trade g r gv s p) = cashSum g := by
  by_cases h1 : (g.players r).dollars < p
  · rw [trade_of_cash h1]
  by_cases h2 : (g.players gv).inventory s < 1
  · rw [trade_of_inv h1 h2]
  unfold cashSum
  rw [trade_players_eq h1 h2]
  unfold tradedPlayers
  rw [dollars_sum_update, dollars_sum_update]
  dsimp only
  ring

lemma invSum_trade {n : Nat} (g : GameState n) (r gv : Fin n) (s : Suit) (p : Int)
    (s0 : Suit) : invSum (trade g r gv s p) s0 = invSum g s0 := by
  by_cases h1 : (g.players r).dollars < p
  · rw [trade_of_cash h1]
  by_cases h2 : (g.players gv).inventory s < 1
  · rw [trade_of_inv h1 h2]
  unfold invSum
  rw [trade_players_eq h1 h2]
  unfold tradedPlayers
  rw [inv_sum_update, inv_sum_update]
  dsimp only
  by_cases hs : s0 = s
  · subst hs
    simp [Function.update_same]
  · simp [Function.update_noteq hs]

lemma addOrder_shape {n : Nat} (g : GameState n) (o : Order n) :
    addOrder g o = g ∨
    (∃ (r gv : Fin n) (p : Int), addOrder g o = trade g r gv o.suit p) ∨
    (∃ e : BookEntry n, addOrder g o = { g with book := Function.update g.book o.suit e }) := by
  obtain ⟨c, side, p, b⟩ := o
  cases side
  case bid =>
    by_cases h1 : p ≤ (g.book c).bid.price ∧ (g.book c).bid.player ≠ some b
    · exact Or.inl (addOrder_bid_reject g c p b h1)
    by_cases h2 : (g.book c).ask.price ≤ p ∧ (g.book c).ask.player ≠ some b
    · cases hap : (g.book c).ask.player with
      | none => exact Or.inl (addOrder_bid_raise g c p b h1 h2 hap)
      | some asker =>
        refine Or.inr (Or.inl ⟨b, asker, min p (g.book c).ask.price, ?_⟩)
        exact addOrder_bid_cross g c p b asker h1 h2 hap
    · refine Or.inr (Or.inr ⟨{ g.book c with bid := ⟨p, some b⟩ }, ?_⟩)
      exact addOrder_bid_rest g c p b h1 h2
  case ask =>
    by_cases h0 : (g.players b).inventory c < 1
    · exact Or.inl (addOrder_ask_noinv g c p b h0)
    by_cases h1 : (g.book c).ask.price ≤ p ∧ (g.book c).ask.player ≠ some b
    · exact Or.inl (addOrder_ask_reject g c p b h0 h1)
    by_cases h2 : p ≤ (g.book c).bid.price ∧ (g.book c).bid.player ≠ some b
    · cases hbp : (g.book c).bid.player with
      | none => exact Or.inl (addOrder_ask_raise g c p b h0 h1 h2 hbp)
      | some bidder =>
        refine Or.inr (Or.inl ⟨bidder, b, min p (g.book c).bid.price, ?_⟩)
        exact addOrder_ask_cross g c p b bidder h0 h1 h2 hbp
    · refine Or.inr (Or.inr ⟨{ g.book c with ask := ⟨p, some b⟩ }, ?_⟩)
      exact addOrder_ask_rest g c p b h0 h1 h2

lemma cashSum_addOrder {n : Nat} (g : GameState n) (o : Order n) :
    cashSum (addOrder g o) = cashSum g := by
  rcases addOrder_shape g o with h | ⟨r, gv, p, h⟩ | ⟨e, h⟩
  · rw [h]
  · rw [h, cashSum_trade]
  · rw [h]; rfl

lemma invSum_addOrder {n : Nat} (g : GameState n) (o : Order n) (s0 : Suit) :
    invSum (addOrder g o) s0 = invSum g s0 := by
  rcases addOrder_shape g o with h | ⟨r, gv, p, h⟩ | ⟨e, h⟩
  · rw [h]
  · rw [h, invSum_trade]
  · rw [h]; rfl

lemma pot_addOrder {n : Nat} (g : GameState n) (o : Order n) :
    (addOrder g o).pot = g.pot := by
  rcases addOrder_shape g o with h | ⟨r, gv, p, h⟩ | ⟨e, h⟩
  · rw [h]
  · rw [h, trade_pot_eq]
  · rw [h]

lemma goalSuit_addOrder {n : Nat} (g : GameState n) (o : Order n) :
    (addOrder g o).goalSuit = g.goalSuit := by
  rcases addOrder_shape g o with h | ⟨r, gv, p, h⟩ | ⟨e, h⟩
  · rw [h]
  · rw [h, trade_goalSuit_eq]
  · rw [h]

lemma endRound_players {n : Nat} {g g' : GameState n} (h : endRound g = some g') :
    ∃ w : Fin n, g'.players =
      Function.update g.players w
        { g.players w with dollars := (g.players w).dollars + g.pot } := by
  unfold endRound at h
  split at h
  · exact absurd h (by simp)
  · split at h
    · exact absurd h (by simp)
    · rename_i goal hgoal w hw
      refine ⟨w, ?_⟩
      have := Option.some.inj h
      subst this
      rfl

lemma cashSum_endRound {n : Nat} {g g' : GameState n} (h : endRound g = some g') :
    cashSum g' = cashSum g + g.pot := by
  obtain ⟨w, hw⟩ := endRound_players h
  unfold cashSum
  rw [hw, dollars_sum_update]
  dsimp only
  ring

lemma invSum_endRound {n : Nat} {g g' : GameState n} (h : endRound g = some g')
    (s0 : Suit) : invSum g' s0 = invSum g s0 := by
  obtain ⟨w, hw⟩ := endRound_players h
  unfold invSum
  rw [hw, inv_sum_update]
  dsimp only
  ring

/-! ### Winner-scan lemmas -/

lemma winnerScanStep_lt {n : Nat} (g : GameState n) (goal : Suit)
    (acc : Option (Fin n) × Int) (i : Fin n)
    (hc : acc.2 < (g.players i).inventory goal) :
    winnerScanStep g goal acc i = (some i, (g.players i).inventory goal) := by
  unfold winnerScanStep
  rw [if_pos hc]

lemma winnerScanStep_ge {n : Nat} (g : GameState n) (goal : Suit)
    (acc : Option (Fin n) × Int) (i : Fin n)
    (hc : ¬ acc.2 < (g.players i).inventory goal) :
    winnerScanStep g goal acc i = acc := by
  unfold winnerScanStep
  rw [if_neg hc]

lemma winnerScan_none {n : Nat} (g : GameState n) (goal : Suit) :
    ∀ (l : List (Fin n)) (acc : Option (Fin n) × Int),
      (l.foldl (winnerScanStep g goal) acc).1 = none →
      acc.1 = none ∧ ∀ i ∈ l, (g.players i).inventory goal ≤ acc.2 := by
  intro l
  induction l with
  | nil => exact fun acc h => ⟨h, by simp⟩
  | cons hd t ih =>
    intro acc h
    simp only [List.foldl_cons] at h
    by_cases hc : acc.2 < (g.players hd).inventory goal
    · rw [winnerScanStep_lt g goal acc hd hc] at h
      have := (ih _ h).1
      simp at this
    · rw [winnerScanStep_ge g goal acc hd hc] at h
      obtain ⟨h1, h2⟩ := ih _ h
      push_neg at hc
      refine ⟨h1, fun i hi => ?_⟩
      rcases List.mem_cons.mp hi with rfl | hit
      · exact hc
      · exact h2 i hit

lemma winnerScan_snd {n : Nat} (g : GameState n) (goal : Suit) :
    ∀ (l : List (Fin n)) (acc : Option (Fin n) × Int),
      (l.foldl (winnerScanStep g goal) acc).2 = acc.2 ∨
      ∃ i ∈ l, (l.foldl (winnerScanStep g goal) acc).2 = (g.players i).inventory goal := by
  intro l
  induction l with
  | nil => exact fun acc => Or.inl rfl
  | cons hd t ih =>
    intro acc
    simp only [List.foldl_cons]
    by_cases hc : acc.2 < (g.players hd).inventory goal
    · rw [winnerScanStep_lt g goal acc hd hc]
      rcases ih (some hd, (g.players hd).inventory goal) with h | ⟨i, hi, h⟩
      · exact Or.inr ⟨hd, List.mem_cons_self hd t, h⟩
      · exact Or.inr ⟨i, List.mem_cons_of_mem hd hi, h⟩
    · rw [winnerScanStep_ge g goal acc hd hc]
      rcases ih acc with h | ⟨i, hi, h⟩
      · exact Or.inl h
      · exact Or.inr ⟨i, List.mem_cons_of_mem hd hi, h⟩

lemma winnerScan_const {n : Nat} (g : GameState n) (goal : Suit) :
    ∀ (l : List (Fin n)) (acc : Option (Fin n) × Int),
      (∀ i ∈ l, (g.players i).inventory goal ≤ acc.2) →
      l.foldl (winnerScanStep g goal) acc = acc := by
  intro l
  induction l with
  | nil => exact fun acc _ => rfl
  | cons hd t ih =>
    intro acc hall
    simp only [List.foldl_cons]
    have hhd : ¬ acc.2 < (g.players hd).inventory goal :=
      not_lt.mpr (hall hd (List.mem_cons_self hd t))
    rw [winnerScanStep_ge g goal acc hd hhd]
    exact ih acc fun i hi => hall i (List.mem_cons_of_mem hd hi)

lemma findWinner_first {n : Nat} (g : GameState n) (goal : Suit) (w : Fin n)
    (hw : 0 < (g.players w).inventory goal)
    (hmax : ∀ j : Fin n, (g.players j).inventory goal ≤ (g.players w).inventory goal)
    (hfirst : ∀ j : Fin n, j.val < w.val →
      (g.players j).inventory goal < (g.players w).inventory goal) :
    findWinner g goal = (some w, (g.players w).inventory goal) := by
  unfold findWinner
  have hwlen : w.val < (List.finRange n).length := by simp
  have hsplit : List.finRange n =
      (List.finRange n).take w.val ++ w :: (List.finRange n).drop (w.val + 1) := by
    conv_lhs => rw [← List.take_append_drop w.val (List.finRange n)]
    congr 1
    rw [List.drop_eq_getElem_cons hwlen]
    congr 1
    simp
  rw [hsplit, List.foldl_append]
  have htake : ∀ i ∈ (List.finRange n).take w.val, i.val < w.val := by
    intro i hi
    obtain ⟨m, hm, hget⟩ := List.mem_iff_getElem.mp hi
    rw [List.length_take] at hm
    have hmw : m < w.val := lt_of_lt_of_le hm (min_le_left _ _)
    rw [List.getElem_take] at hget
    have hval : i.val = m := by
      rw [← hget]
      simp
    omega
  set accA := ((List.finRange n).take w.val).foldl (winnerScanStep g goal) (none, 0) with haccA
  have haccA2 : accA.2 < (g.players w).inventory goal := by
    rcases winnerScan_snd g goal ((List.finRange n).take w.val) (none, 0) with h | ⟨i, hi, h⟩
    · rw [← haccA] at h
      rw [h]
      exact hw
    · rw [← haccA] at h
      rw [h]
      exact hfirst i (htake i hi)
  simp only [List.foldl_cons]
  rw [winnerScanStep_lt g goal accA w haccA2]
  exact winnerScan_const g goal _ _ fun i _ => hmax i

lemma findWinner_isSome {n : Nat} (g : GameState n) (goal : Suit)
    (h : ∃ i : Fin n, 0 < (g.players i).inventory goal) :
    (findWinner g goal).1.isSome := by
  obtain ⟨i, hi⟩ := h
  cases hfw : (findWinner g goal).1 with
  | none =>
    unfold findWinner at hfw
    have := (winnerScan_none g goal (List.finRange n) (none, 0) hfw).2 i (List.mem_finRange i)
    omega
  | some w => rfl

/-! ### Step/run preservation -/

lemma cashPot_applyOp {n : Nat} (g : GameState n) (op : Op n) :
    cashSum (applyOp g op) + (applyOp g op).pot = cashSum g + g.pot := by
  cases op with
  | submit o =>
    show cashSum (addOrder g o) + (addOrder g o).pot = _
    rw [cashSum_addOrder, pot_addOrder]
  | doTrade r gv s p =>
    show cashSum (trade g r gv s p) + (trade g r gv s p).pot = _
    rw [cashSum_trade, trade_pot_eq]
  | settle =>
    cases he : endRound g with
    | none => simp [applyOp, he]
    | some g' =>
      simp only [applyOp, he, Option.getD_some]
      rw [cashSum_endRound he, (endRound_some_fields he).2.2.2]
      ring

lemma cashPot_run {n : Nat} (g : GameState n) (ops : List (Op n)) :
    cashSum (run g ops) + (run g ops).pot = cashSum g + g.pot := by
  induction ops generalizing g with
  | nil => rfl
  | cons op t ih =>
    show cashSum (run (applyOp g op) t) + (run (applyOp g op) t).pot = _
    rw [ih (applyOp g op), cashPot_applyOp]

lemma invSum_applyOp {n : Nat} (g : GameState n) (op : Op n) (s0 : Suit) :
    invSum (applyOp g op) s0 = invSum g s0 := by
  cases op with
  | submit o => exact invSum_addOrder g o s0
  | doTrade r gv s p => exact invSum_trade g r gv s p s0
  | settle =>
    cases he : endRound g with
    | none => simp [applyOp, he]
    | some g' =>
      simp only [applyOp, he, Option.getD_some]
      exact invSum_endRound he s0

lemma invSum_run {n : Nat} (g : GameState n) (ops : List (Op n)) (s0 : Suit) :
    invSum (run g ops) s0 = invSum g s0 := by
  induction ops generalizing g with
  | nil => rfl
  | cons op t ih =>
    show invSum (run (applyOp g op) t) s0 = _
    rw [ih (applyOp g op), invSum_applyOp]

lemma goalSuit_applyOp {n : Nat} (g : GameState n) (op : Op n) :
    (applyOp g op).goalSuit = g.goalSuit := by
  cases op with
  | submit o => exact goalSuit_addOrder g o
  | doTrade r gv s p => exact trade_goalSuit_eq g r gv s p
  | settle =>
    cases he : endRound g with
    | none => simp [applyOp, he]
    | some g' =>
      simp only [applyOp, he, Option.getD_some]
      exact (endRound_some_fields he).2.1

lemma goalSuit_run {n : Nat} (g : GameState n) (ops : List (Op n)) :
    (run g ops).goalSuit = g.goalSuit := by
  induction ops generalizing g with
  | nil => rfl
  | cons op t ih =>
    show (run (applyOp g op) t).goalSuit = _
    rw [ih (applyOp g op), goalSuit_applyOp]

lemma endRound_isSome_of_holder {n : Nat} (g : GameState n) (goal : Suit)
    (hgoal : g.goalSuit = some goal)
    (h : ∃ i : Fin n, 0 < (g.players i).inventory goal) :
    (endRound g).isSome := by
  unfold endRound
  rw [hgoal]
  have := findWinner_isSome g goal h
  cases hfw : (findWinner g goal).1 with
  | none => rw [hfw] at this; simp at this
  | some w => simp [hfw]

lemma cashSum_initState (n : Nat) (rdeck : List Suit) (goal : Suit) :
    cashSum (initState n rdeck goal) = 60 * (n : Int) := by
  unfold cashSum initState
  simp [Finset.sum_const, Finset.card_univ, mul_comm]

/-! ### Concrete states for witnesses and counterexamples -/

/-- A dealt deck in pop order: 12 hearts, 10 diamonds, 10 clubs, 8 spades
(player 0 receives the first ten cards, and so on). -/
def rdeck0 : List Suit :=
  List.replicate 12 .hearts ++ List.replicate 10 .diamonds ++
  List.replicate 10 .clubs ++ List.replicate 8 .spades

/-- The book-shape property exactly as the claim words it: whenever a suit
has a non-sentinel resting bid and a non-sentinel resting ask, the bid
price is strictly below the ask price (no qualification on who holds
them). -/
def BookStrict {n : Nat} (g : GameState n) : Prop :=
  ∀ s : Suit, (g.book s).bid.player ≠ none → (g.book s).ask.player ≠ none →
    (g.book s).bid.price < (g.book s).ask.price

/-! ### C1 -/

/-- C1 (amended): starting from any state whose book is all sentinels, every
sequence of engine steps preserves the book-shape invariant in the form
that actually holds: each suit stores (structurally) at most one resting
bid and one resting ask, and whenever both rest non-sentinel AND are held
by different agents, the bid price is strictly below the ask price.  The
unqualified claim fails because an agent revising the side opposite its
own resting order is exempt from the crossing check, so a crossed pair
held by one and the same agent can rest (see the counterexample). -/
theorem c1_book_shape {n : Nat} (g0 : GameState n)
    (h0 : ∀ s : Suit, (g0.book s).bid.player = none ∧ (g0.book s).ask.player = none)
    (ops : List (Op n)) : BookWF (run g0 ops) := by
  apply bookWF_run
  intro s i j hb _ _
  rw [(h0 s).1] at hb
  exact absurd hb (by simp)

/-- C1 witness: a concrete run resting a diamonds bid at 5 (player 0) and a
diamonds ask at 9 (player 1) satisfies the invariant. -/
theorem c1_witness :
    BookWF (run (initState 4 rdeck0 .hearts)
      [.submit ⟨.diamonds, .ask, 9, 1⟩, .submit ⟨.diamonds, .bid, 5, 0⟩]) :=
  c1_book_shape (initState 4 rdeck0 .hearts) (fun _ => ⟨rfl, rfl⟩) _

/-- C1 counterexample: from a freshly initialised round (sentinel book),
player 0 bids hearts at 15 and then asks hearts at 10; both rest (the
self-trade check skips the match), leaving a non-sentinel crossed pair
bid 15 ≥ ask 10, so the claim as stated is false. -/
theorem c1_counterexample :
    ¬ BookStrict (run (initState 4 rdeck0 .diamonds)
      [.submit ⟨.hearts, .bid, 15, 0⟩, .submit ⟨.hearts, .ask, 10, 0⟩]) := by
  unfold BookStrict
  decide

/-! ### C2 -/

/-- C2: for every round of N players (N = 4 or 5): the sum of all players'
cash plus the pot is invariant under every add_order call and every _trade
call; on every state reached from construction it equals 100·N; whenever
end_round settles successfully the winner absorbs the whole pot, the
players' cash alone sums to 100·N and the pot is 0; and settlement does
succeed whenever some player (in particular a unique maximum holder) holds
a goal-suit card. -/
theorem c2_cash_conservation (n : Nat) (hn : n = 4 ∨ n = 5) (rdeck : List Suit)
    (goal : Suit) (ops : List (Op n)) :
    (∀ (g : GameState n) (o : Order n),
      cashSum (addOrder g o) + (addOrder g o).pot = cashSum g + g.pot) ∧
    (∀ (g : GameState n) (r gv : Fin n) (s : Suit) (p : Int),
      cashSum (trade g r gv s p) + (trade g r gv s p).pot = cashSum g + g.pot) ∧
    cashSum (run (initState n rdeck goal) ops) +
      (run (initState n rdeck goal) ops).pot = 100 * (n : Int) ∧
    (∀ g', endRound (run (initState n rdeck goal) ops) = some g' →
      cashSum g' = 100 * (n : Int) ∧ g'.pot = 0) ∧
    ((∃ w : Fin n, 0 < ((run (initState n rdeck goal) ops).players w).inventory goal ∧
        ∀ j : Fin n, j ≠ w →
          ((run (initState n rdeck goal) ops).players j).inventory goal <
          ((run (initState n rdeck goal) ops).players w).inventory goal) →
      (endRound (run (initState n rdeck goal) ops)).isSome) := by
  refine ⟨?_, ?_, ?_, ?_, ?_⟩
  · intro g o
    rw [cashSum_addOrder, pot_addOrder]
  · intro g r gv s p
    rw [cashSum_trade, trade_pot_eq]
  · rw [cashPot_run, cashSum_initState]
    show 60 * (n : Int) + 40 * (n : Int) = 100 * (n : Int)
    ring
  · intro g' hg'
    refine ⟨?_, (endRound_some_fields hg').2.2.2⟩
    rw [cashSum_endRound hg', cashPot_run, cashSum_initState]
    show 60 * (n : Int) + 40 * (n : Int) = 100 * (n : Int)
    ring
  · rintro ⟨w, hw, -⟩
    refine endRound_isSome_of_holder _ goal ?_ ⟨w, hw⟩
    rw [goalSuit_run]
    rfl

/-- C2 witness: a concrete 4-player round with one executed trade still has
cash + pot equal to 400. -/
theorem c2_witness :
    cashSum (run (initState 4 rdeck0 .diamonds)
        [.submit ⟨.hearts, .ask, 10, 0⟩, .submit ⟨.hearts, .bid, 11, 1⟩]) +
      (run (initState 4 rdeck0 .diamonds)
        [.submit ⟨.hearts, .ask, 10, 0⟩, .submit ⟨.hearts, .bid, 11, 1⟩]).pot =
      100 * ((4 : Nat) : Int) :=
  (c2_cash_conservation 4 (Or.inl rfl) rdeck0 .diamonds
    [.submit ⟨.hearts, .ask, 10, 0⟩, .submit ⟨.hearts, .bid, 11, 1⟩]).2.2.1

/-! ### C3 -/

/-- C3: _trade(receiver, giver, suit, price) between two distinct players:
if the receiver's cash is below the price, or the giver holds no unit of
the suit, the call returns with the whole state unchanged; otherwise the
receiver pays the price to the giver, exactly one unit of the suit moves
from giver to receiver (all other holdings untouched), the suit's book
resets to the sentinels (−999, none) / (999, none), and the price is
recorded as that suit's last traded price. -/
theorem c3_trade_spec {n : Nat} (g : GameState n) (r gv : Fin n) (s : Suit)
    (p : Int) (hne : r ≠ gv) :
    ((g.players r).dollars < p → trade g r gv s p = g) ∧
    ((g.players gv).inventory s < 1 → trade g r gv s p = g) ∧
    (¬ (g.players r).dollars < p → ¬ (g.players gv).inventory s < 1 →
      ((trade g r gv s p).players r).dollars = (g.players r).dollars - p ∧
      ((trade g r gv s p).players gv).dollars = (g.players gv).dollars + p ∧
      ((trade g r gv s p).players r).inventory s = (g.players r).inventory s + 1 ∧
      ((trade g r gv s p).players gv).inventory s = (g.players gv).inventory s - 1 ∧
      (∀ s' : Suit, s' ≠ s →
        ((trade g r gv s p).players r).inventory s' = (g.players r).inventory s' ∧
        ((trade g r gv s p).players gv).inventory s' = (g.players gv).inventory s') ∧
      (trade g r gv s p).book s = ⟨sentinelBid n, sentinelAsk n, p⟩) := by
  refine ⟨fun h => trade_of_cash h, ?_, ?_⟩
  · intro h2
    by_cases h1 : (g.players r).dollars < p
    · exact trade_of_cash h1
    · exact trade_of_inv h1 h2
  · intro h1 h2
    have hp := trade_players_eq h1 h2
    have hgr : gv ≠ r := fun hcon => hne hcon.symm
    refine ⟨?_, ?_, ?_, ?_, ?_, trade_book_traded h1 h2⟩
    · rw [hp]
      unfold tradedPlayers
      rw [Function.update_noteq hne, Function.update_same]
    · rw [hp]
      unfold tradedPlayers
      rw [Function.update_same]
      dsimp only
      rw [Function.update_noteq hgr]
    · rw [hp]
      unfold tradedPlayers
      rw [Function.update_noteq hne, Function.update_same]
      dsimp only
      rw [Function.update_same]
    · rw [hp]
      unfold tradedPlayers
      rw [Function.update_same]
      dsimp only
      rw [Function.update_noteq hgr, Function.update_same]
    · intro s' hs'
      rw [hp]
      unfold tradedPlayers
      constructor
      · rw [Function.update_noteq hne, Function.update_same]
        dsimp only
        rw [Function.update_noteq hs']
      · rw [Function.update_same]
        dsimp only
        rw [Function.update_noteq hgr, Function.update_noteq hs']

/-- C3 witness: in the concrete dealt round, player 1 buys a heart from
player 0 at 10: all the listed effects hold. -/
theorem c3_witness :
    ((trade (initState 4 rdeck0 .diamonds) 1 0 .hearts 10).players 1).dollars =
      ((initState 4 rdeck0 .diamonds).players 1).dollars - 10 ∧
    ((trade (initState 4 rdeck0 .diamonds) 1 0 .hearts 10).players 0).dollars =
      ((initState 4 rdeck0 .diamonds).players 0).dollars + 10 ∧
    ((trade (initState 4 rdeck0 .diamonds) 1 0 .hearts 10).players 1).inventory .hearts =
      ((initState 4 rdeck0 .diamonds).players 1).inventory .hearts + 1 ∧
    ((trade (initState 4 rdeck0 .diamonds) 1 0 .hearts 10).players 0).inventory .hearts =
      ((initState 4 rdeck0 .diamonds).players 0).inventory .hearts - 1 ∧
    (∀ s' : Suit, s' ≠ .hearts →
      ((trade (initState 4 rdeck0 .diamonds) 1 0 .hearts 10).players 1).inventory s' =
        ((initState 4 rdeck0 .diamonds).players 1).inventory s' ∧
      ((trade (initState 4 rdeck0 .diamonds) 1 0 .hearts 10).players 0).inventory s' =
        ((initState 4 rdeck0 .diamonds).players 0).inventory s') ∧
    (trade (initState 4 rdeck0 .diamonds) 1 0 .hearts 10).book .hearts =
      ⟨sentinelBid 4, sentinelAsk 4, 10⟩ :=
  (c3_trade_spec (initState 4 rdeck0 .diamonds) 1 0 .hearts 10 (by decide)).2.2
    (by decide) (by decide)

/-! ### C5 -/

/-- C5: after a successful trade in suit c with receiver r, for every other
suit s: a resting bid held by r whose price strictly exceeds r's post-trade
cash is reset to the sentinel (−999, none); a resting bid held by another
agent, or priced within r's new cash, is left unchanged; asks are never
touched by the cascade. -/
theorem c5_cascade {n : Nat} (g : GameState n) (r gv : Fin n) (c : Suit) (p : Int)
    (h1 : ¬ (g.players r).dollars < p) (h2 : ¬ (g.players gv).inventory c < 1)
    (s : Suit) (hs : s ≠ c) :
    (((g.book s).bid.player = some r ∧
        ((trade g r gv c p).players r).dollars < (g.book s).bid.price) →
      ((trade g r gv c p).book s).bid = sentinelBid n) ∧
    (((g.book s).bid.player ≠ some r ∨
        (g.book s).bid.price ≤ ((trade g r gv c p).players r).dollars) →
      ((trade g r gv c p).book s).bid = (g.book s).bid) ∧
    ((trade g r gv c p).book s).ask = (g.book s).ask := by
  have hb := trade_book_other h1 h2 hs
  have hp := trade_players_eq h1 h2
  refine ⟨?_, ?_, ?_⟩
  · rintro ⟨hplayer, hlt⟩
    rw [hp] at hlt
    rw [hb, if_pos ⟨hplayer, hlt⟩]
  · intro hor
    rw [hb, if_neg ?_]
    rintro ⟨hplayer, hlt⟩
    rcases hor with hne | hle
    · exact hne hplayer
    · rw [hp] at hle
      omega
  · rw [hb]
    split_ifs with hcond
    · rfl
    · rfl

/-- The concrete state of Scenario D: player 0 has cash 5 and a resting
diamonds bid at 8; player 1 holds two hearts. -/
def gD : GameState 4 :=
  { players := fun i =>
      if i.val = 0 then ⟨5, fun _ => 0⟩
      else ⟨60, fun s => if s = .hearts then 2 else 0⟩
    book := fun s =>
      if s = .diamonds then ⟨⟨8, some 0⟩, sentinelAsk 4, 0⟩
      else ⟨sentinelBid 4, sentinelAsk 4, 0⟩
    pot := 160
    goalSuit := some .spades
    trades := [] }

/-- C5 witness (Scenario D): player 0 buys a heart from player 1 at 2,
dropping its cash from 5 to 3; its resting diamonds bid at 8 is cancelled
to the sentinel as a side effect. -/
theorem c5_witness :
    ((trade gD 0 1 .hearts 2).book .diamonds).bid = sentinelBid 4 :=
  (c5_cascade gD 0 1 .hearts 2 (by decide) (by decide) .diamonds (by decide)).1
    ⟨by decide, by decide⟩

/-! ### C6 -/

/-- C6: every order rejected by add_order — a bid at a price ≤ the resting
bid held by a different agent, an ask by an agent holding no unit of the
suit, or an ask at a price ≥ the resting ask held by a different agent —
returns with the entire state unchanged (zero mutation); while an agent
whose own order rests on the relevant side may re-rest at any price. -/
theorem c6_reject_zero_mutation {n : Nat} (g : GameState n) (o : Order n) :
    (o.side = .bid → o.price ≤ (g.book o.suit).bid.price →
      (g.book o.suit).bid.player ≠ some o.player → addOrder g o = g) ∧
    (o.side = .ask → (g.players o.player).inventory o.suit < 1 → addOrder g o = g) ∧
    (o.side = .ask → ¬ (g.players o.player).inventory o.suit < 1 →
      (g.book o.suit).ask.price ≤ o.price →
      (g.book o.suit).ask.player ≠ some o.player → addOrder g o = g) ∧
    (o.side = .bid → (g.book o.suit).bid.player = some o.player →
      ¬ ((g.book o.suit).ask.price ≤ o.price ∧
          (g.book o.suit).ask.player ≠ some o.player) →
      (addOrder g o).book o.suit = { g.book o.suit with bid := ⟨o.price, some o.player⟩ }) ∧
    (o.side = .ask → ¬ (g.players o.player).inventory o.suit < 1 →
      (g.book o.suit).ask.player = some o.player →
      ¬ (o.price ≤ (g.book o.suit).bid.price ∧
          (g.book o.suit).bid.player ≠ some o.player) →
      (addOrder g o).book o.suit = { g.book o.suit with ask := ⟨o.price, some o.player⟩ }) := by
  obtain ⟨c, side, p, b⟩ := o
  dsimp only
  refine ⟨?_, ?_, ?_, ?_, ?_⟩
  · intro hside hle hplayer
    subst hside
    exact addOrder_bid_reject g c p b ⟨hle, hplayer⟩
  · intro hside hinv
    subst hside
    exact addOrder_ask_noinv g c p b hinv
  · intro hside hinv hle hplayer
    subst hside
    exact addOrder_ask_reject g c p b hinv ⟨hle, hplayer⟩
  · intro hside hown hcross
    subst hside
    have h1 : ¬ (p ≤ (g.book c).bid.price ∧ (g.book c).bid.player ≠ some b) := by
      rintro ⟨-, hne⟩
      exact hne hown
    rw [addOrder_bid_rest g c p b h1 hcross]
    exact Function.update_same c _ g.book
  · intro hside hinv hown hcross
    subst hside
    have h1 : ¬ ((g.book c).ask.price ≤ p ∧ (g.book c).ask.player ≠ some b) := by
      rintro ⟨-, hne⟩
      exact hne hown
    rw [addOrder_ask_rest g c p b hinv h1 hcross]
    exact Function.update_same c _ g.book

/-- C6 witness (Scenario C): player 3 holds no hearts in the dealt round;
its hearts ask at 5 is rejected with the state unchanged. -/
theorem c6_witness :
    addOrder (initState 4 rdeck0 .diamonds) ⟨.hearts, .ask, 5, 3⟩ =
      initState 4 rdeck0 .diamonds :=
  (c6_reject_zero_mutation (initState 4 rdeck0 .diamonds) ⟨.hearts, .ask, 5, 3⟩).2.1
    rfl (by decide)

/-! ### C9 -/

/-- C9: the bid path performs no cash check: from the dealt round, player 1
(cash 60) rests a hearts bid at 100 above its own cash; player 0's
crossing hearts ask at 70 triggers matching, reaches the defensive reject
inside _trade (receiver cash 60 < trade price 70), and is dropped without
resting — the resulting state is literally the prior state: the
un-honorable bid still rests and no balance, inventory, or trade log entry
changed. -/
theorem c9_unfunded_bid :
    ((addOrder (initState 4 rdeck0 .diamonds) ⟨.hearts, .bid, 100, 1⟩).book .hearts).bid
        = ⟨100, some 1⟩ ∧
    ((addOrder (initState 4 rdeck0 .diamonds) ⟨.hearts, .bid, 100, 1⟩).players 1).dollars
        = 60 ∧
    ((60 : Int) < 100) ∧
    addOrder (addOrder (initState 4 rdeck0 .diamonds) ⟨.hearts, .bid, 100, 1⟩)
        ⟨.hearts, .ask, 70, 0⟩
      = addOrder (initState 4 rdeck0 .diamonds) ⟨.hearts, .bid, 100, 1⟩ ∧
    (addOrder (addOrder (initState 4 rdeck0 .diamonds) ⟨.hearts, .bid, 100, 1⟩)
        ⟨.hearts, .ask, 70, 0⟩).trades = [] := by
  refine ⟨by decide, by decide, by decide, ?_, by decide⟩
  rfl

/-! ### C4 -/

/-- C4 (amended): whenever an ask at price P by agent a rests as suit c's
best ask, a bid by a different agent b at any price p ≥ P yields exactly
one trade at min(p, P) = P — the trade log grows by exactly the one record
(b, a, c, P), the suit's book resets to sentinels with last traded price P,
and cash/inventory move accordingly, the bid never resting — PROVIDED the
bid passes the bid-priority check (p above the resting bid's price, or
that bid is b's own), b's cash covers P, and a still holds a unit of c.
Without those provisos the claim fails: see the counterexample, where the
defensive reject inside _trade yields zero trades. -/
theorem c4_match_law {n : Nat} (g : GameState n) (c : Suit) (P : Int) (a b : Fin n)
    (p : Int)
    (hask : (g.book c).ask = ⟨P, some a⟩)
    (hab : b ≠ a) (hp : P ≤ p)
    (hprio : (g.book c).bid.price < p ∨ (g.book c).bid.player = some b)
    (hcash : P ≤ (g.players b).dollars)
    (hinv : 1 ≤ (g.players a).inventory c) :
    (addOrder g ⟨c, .bid, p, b⟩).trades = g.trades ++ [⟨b, a, c, P⟩] ∧
    ((addOrder g ⟨c, .bid, p, b⟩).book c).bid = sentinelBid n ∧
    ((addOrder g ⟨c, .bid, p, b⟩).book c).ask = sentinelAsk n ∧
    ((addOrder g ⟨c, .bid, p, b⟩).book c).last_traded_price = P ∧
    ((addOrder g ⟨c, .bid, p, b⟩).players b).dollars = (g.players b).dollars - P ∧
    ((addOrder g ⟨c, .bid, p, b⟩).players b).inventory c = (g.players b).inventory c + 1 ∧
    ((addOrder g ⟨c, .bid, p, b⟩).players a).dollars = (g.players a).dollars + P ∧
    ((addOrder g ⟨c, .bid, p, b⟩).players a).inventory c = (g.players a).inventory c - 1 := by
  have haskp : (g.book c).ask.price = P := by rw [hask]
  have haskpl : (g.book c).ask.player = some a := by rw [hask]
  have h1 : ¬ (p ≤ (g.book c).bid.price ∧ (g.book c).bid.player ≠ some b) := by
    rintro ⟨hle, hne⟩
    rcases hprio with hlt | hown
    · omega
    · exact hne hown
  have h2 : (g.book c).ask.price ≤ p ∧ (g.book c).ask.player ≠ some b := by
    refine ⟨by omega, ?_⟩
    rw [haskpl]
    intro hcon
    exact hab (Option.some.inj hcon).symm
  have hcross := addOrder_bid_cross g c p b a h1 h2 haskpl
  rw [haskp, min_eq_right hp] at hcross
  rw [hcross]
  have hc1 : ¬ (g.players b).dollars < P := by omega
  have hi1 : ¬ (g.players a).inventory c < 1 := by omega
  have hbook := trade_book_traded hc1 hi1
  have hpl := trade_players_eq hc1 hi1
  have hba : a ≠ b := fun hcon => hab hcon.symm
  refine ⟨trade_trades_eq hc1 hi1, ?_, ?_, ?_, ?_, ?_, ?_, ?_⟩
  · rw [hbook]
  · rw [hbook]
  · rw [hbook]
  · rw [hpl]
    unfold tradedPlayers
    rw [Function.update_noteq hab, Function.update_same]
  · rw [hpl]
    unfold tradedPlayers
    rw [Function.update_noteq hab, Function.update_same]
    dsimp only
    rw [Function.update_same]
  · rw [hpl]
    unfold tradedPlayers
    rw [Function.update_same]
    dsimp only
    rw [Function.update_noteq hba]
  · rw [hpl]
    unfold tradedPlayers
    rw [Function.update_same]
    dsimp only
    rw [Function.update_noteq hba, Function.update_same]

/-- C4 witness (Scenario A): in the dealt round, player 0 asks hearts at 10
(which rests), then player 1 bids hearts at 11: exactly one trade at 10 is
logged. -/
theorem c4_witness :
    (addOrder (addOrder (initState 4 rdeck0 .diamonds) ⟨.hearts, .ask, 10, 0⟩)
        ⟨.hearts, .bid, 11, 1⟩).trades =
      (addOrder (initState 4 rdeck0 .diamonds) ⟨.hearts, .ask, 10, 0⟩).trades ++
        [⟨1, 0, .hearts, 10⟩] :=
  (c4_match_law (addOrder (initState 4 rdeck0 .diamonds) ⟨.hearts, .ask, 10, 0⟩)
    .hearts 10 0 1 11 (by decide) (by decide) (by decide) (Or.inl (by decide))
    (by decide) (by decide)).1

/-- A state whose player 0 holds one heart while player 1 has no cash. -/
def gBroke : GameState 4 :=
  { players := fun i =>
      if i.val = 0 then ⟨60, fun s => if s = .hearts then 1 else 0⟩
      else ⟨0, fun _ => 0⟩
    book := fun _ => ⟨sentinelBid 4, sentinelAsk 4, 0⟩
    pot := 160
    goalSuit := some .diamonds
    trades := [] }

/-- C4 counterexample: player 0's hearts ask at 10 rests as best ask; the
cash-less player 1 then bids hearts at 11 ≥ 10 — yet zero trades result
(the defensive reject inside _trade drops the order), refuting "always
yields exactly one trade". -/
theorem c4_counterexample :
    ((addOrder gBroke ⟨.hearts, .ask, 10, 0⟩).book .hearts).ask = ⟨10, some 0⟩ ∧
    (addOrder (addOrder gBroke ⟨.hearts, .ask, 10, 0⟩) ⟨.hearts, .bid, 11, 1⟩).trades
      = [] ∧
    ((addOrder (addOrder gBroke ⟨.hearts, .ask, 10, 0⟩) ⟨.hearts, .bid, 11, 1⟩).players
        1).inventory .hearts = 0 := by
  refine ⟨by decide, by decide, by decide⟩

/-! ### C7: nonnegativity -/

lemma tradedPlayers_dollars {n : Nat} (g : GameState n) (r gv : Fin n) (s : Suit)
    (p : Int) (j : Fin n) :
    (tradedPlayers g r gv s p j).dollars =
      (g.players j).dollars - (if j = r then p else 0) + (if j = gv then p else 0) := by
  unfold tradedPlayers
  by_cases hj : j = gv <;> by_cases hr : j = r
  · subst hj
    subst hr
    simp [Function.update_apply]
  · subst hj
    simp [Function.update_apply, hr]
  · subst hr
    simp [Function.update_apply, hj]
  · simp [Function.update_apply, hj, hr]

lemma tradedPlayers_inventory {n : Nat} (g : GameState n) (r gv : Fin n) (s : Suit)
    (p : Int) (j : Fin n) (s0 : Suit) :
    (tradedPlayers g r gv s p j).inventory s0 =
      (g.players j).inventory s0 + (if j = r ∧ s0 = s then 1 else 0) -
        (if j = gv ∧ s0 = s then 1 else 0) := by
  unfold tradedPlayers
  by_cases hj : j = gv <;> by_cases hr : j = r <;> by_cases hs : s0 = s
  · subst hj
    subst hr
    subst hs
    simp [Function.update_apply]
  · subst hj
    subst hr
    simp [Function.update_apply, hs]
  · subst hj
    subst hs
    simp [Function.update_apply, hr]
  · subst hj
    simp [Function.update_apply, hr, hs]
  · subst hr
    subst hs
    simp [Function.update_apply, hj]
  · subst hr
    simp [Function.update_apply, hj, hs]
  · subst hs
    simp [Function.update_apply, hj, hr]
  · simp [Function.update_apply, hj, hr, hs]

/-- The invariant behind the nonnegativity claim: every player's cash and
holdings are nonnegative, every non-sentinel resting order has a
nonnegative price, and the pot is nonnegative. -/
def NonnegState {n : Nat} (g : GameState n) : Prop :=
  (∀ i : Fin n, 0 ≤ (g.players i).dollars ∧ ∀ s : Suit, 0 ≤ (g.players i).inventory s) ∧
  (∀ s : Suit, ((g.book s).bid.player ≠ none → 0 ≤ (g.book s).bid.price) ∧
    ((g.book s).ask.player ≠ none → 0 ≤ (g.book s).ask.price)) ∧
  0 ≤ g.pot

lemma nonneg_trade {n : Nat} {g : GameState n} (h : NonnegState g)
    (r gv : Fin n) (s : Suit) {p : Int} (hp : 0 ≤ p) :
    NonnegState (trade g r gv s p) := by
  by_cases h1 : (g.players r).dollars < p
  · rw [trade_of_cash h1]; exact h
  by_cases h2 : (g.players gv).inventory s < 1
  · rw [trade_of_inv h1 h2]; exact h
  obtain ⟨hpl, hbook, hpot⟩ := h
  refine ⟨?_, ?_, ?_⟩
  · intro j
    have d0 := (hpl j).1
    have dgv := (hpl gv).1
    constructor
    · rw [trade_players_eq h1 h2, tradedPlayers_dollars]
      split_ifs with ha hb hb
      · omega
      · rw [ha]; omega
      · rw [hb]; omega
      · omega
    · intro s0
      have i0 := (hpl j).2 s0
      rw [trade_players_eq h1 h2, tradedPlayers_inventory]
      split_ifs with ha hb hb
      · omega
      · omega
      · rw [hb.1, hb.2]; omega
      · omega
  · intro s0
    by_cases hs : s0 = s
    · rw [hs, trade_book_traded h1 h2]
      exact ⟨fun hcon => absurd rfl hcon, fun hcon => absurd rfl hcon⟩
    · rw [trade_book_other h1 h2 hs]
      split_ifs with hc
      · exact ⟨fun hcon => absurd rfl hcon, (hbook s0).2⟩
      · exact hbook s0
  · rw [trade_pot_eq]
    exact hpot

lemma nonneg_addOrder {n : Nat} {g : GameState n} (h : NonnegState g) (o : Order n)
    (hp : 0 ≤ o.price) : NonnegState (addOrder g o) := by
  obtain ⟨c, side, p, b⟩ := o
  dsimp only at hp
  cases side
  case bid =>
    by_cases h1 : p ≤ (g.book c).bid.price ∧ (g.book c).bid.player ≠ some b
    · rw [addOrder_bid_reject g c p b h1]; exact h
    by_cases h2 : (g.book c).ask.price ≤ p ∧ (g.book c).ask.player ≠ some b
    · cases hap : (g.book c).ask.player with
      | none => rw [addOrder_bid_raise g c p b h1 h2 hap]; exact h
      | some asker =>
        rw [addOrder_bid_cross g c p b asker h1 h2 hap]
        have hask := (h.2.1 c).2 (by rw [hap]; exact fun hcon => Option.noConfusion hcon)
        exact nonneg_trade h b asker c (le_min hp hask)
    · rw [addOrder_bid_rest g c p b h1 h2]
      obtain ⟨hpl, hbook, hpot⟩ := h
      refine ⟨hpl, ?_, hpot⟩
      intro s0
      dsimp only
      by_cases hs : s0 = c
      · rw [hs, Function.update_same]
        exact ⟨fun _ => hp, (hbook c).2⟩
      · rw [Function.update_noteq hs]
        exact hbook s0
  case ask =>
    by_cases h0 : (g.players b).inventory c < 1
    · rw [addOrder_ask_noinv g c p b h0]; exact h
    by_cases h1 : (g.book c).ask.price ≤ p ∧ (g.book c).ask.player ≠ some b
    · rw [addOrder_ask_reject g c p b h0 h1]; exact h
    by_cases h2 : p ≤ (g.book c).bid.price ∧ (g.book c).bid.player ≠ some b
    · cases hbp : (g.book c).bid.player with
      | none => rw [addOrder_ask_raise g c p b h0 h1 h2 hbp]; exact h
      | some bidder =>
        rw [addOrder_ask_cross g c p b bidder h0 h1 h2 hbp]
        have hbid := (h.2.1 c).1 (by rw [hbp]; exact fun hcon => Option.noConfusion hcon)
        exact nonneg_trade h bidder b c (le_min hp hbid)
    · rw [addOrder_ask_rest g c p b h0 h1 h2]
      obtain ⟨hpl, hbook, hpot⟩ := h
      refine ⟨hpl, ?_, hpot⟩
      intro s0
      dsimp only
      by_cases hs : s0 = c
      · rw [hs, Function.update_same]
        exact ⟨(hbook c).1, fun _ => hp⟩
      · rw [Function.update_noteq hs]
        exact hbook s0

lemma nonneg_endRound {n : Nat} {g : GameState n} (h : NonnegState g) :
    NonnegState ((endRound g).getD g) := by
  cases he : endRound g with
  | none => simpa using h
  | some g' =>
    simp only [Option.getD_some]
    obtain ⟨w, hw⟩ := endRound_players he
    obtain ⟨hb, -, -, hpot0⟩ := endRound_some_fields he
    obtain ⟨hpl, hbook, hpot⟩ := h
    refine ⟨?_, ?_, by simp [hpot0]⟩
    · intro j
      rw [hw]
      by_cases hj : j = w
      · rw [hj, Function.update_same]
        refine ⟨?_, fun s => (hpl w).2 s⟩
        dsimp only
        have := (hpl w).1
        omega
      · rw [Function.update_noteq hj]
        exact hpl j
    · intro s0
      rw [hb]
      exact hbook s0

/-- Prices carried by an engine step (orders and direct trades). -/
def opPriceNonneg {n : Nat} : Op n → Prop
  | .submit o => 0 ≤ o.price
  | .doTrade _ _ _ p => 0 ≤ p
  | .settle => True

lemma nonneg_applyOp {n : Nat} {g : GameState n} (h : NonnegState g) (op : Op n)
    (hp : opPriceNonneg op) : NonnegState (applyOp g op) := by
  cases op with
  | submit o => exact nonneg_addOrder h o hp
  | doTrade r gv s p => exact nonneg_trade h r gv s hp
  | settle => exact nonneg_endRound h

lemma nonneg_run {n : Nat} : ∀ (ops : List (Op n)) (g : GameState n),
    NonnegState g → (∀ op ∈ ops, opPriceNonneg op) → NonnegState (run g ops)
  | [], _, h, _ => h
  | op :: t, g, h, hops =>
    nonneg_run t (applyOp g op)
      (nonneg_applyOp h op (hops op (List.mem_cons_self op t)))
      (fun o ho => hops o (List.mem_cons_of_mem op ho))

lemma nonneg_initState (n : Nat) (rdeck : List Suit) (goal : Suit) :
    NonnegState (initState n rdeck goal) := by
  refine ⟨?_, ?_, ?_⟩
  · exact fun i => ⟨show (0 : Int) ≤ 60 by norm_num, fun s => Int.natCast_nonneg _⟩
  · exact fun s => ⟨fun hcon => absurd rfl hcon, fun hcon => absurd rfl hcon⟩
  · exact mul_nonneg (by norm_num) (Int.natCast_nonneg n)

/-- C7 (amended): from construction (ante included), through any sequence
of add_order, _trade and end_round calls whose prices are all
nonnegative, every player's cash and every per-suit held-count stay ≥ 0
(the guards reject any mutation that would drive them negative).  The
claim as stated — for arbitrary sequences — fails: _trade performs no
validation on the giver side of the cash transfer, so a negative-price
trade drives the giver's cash negative (see the counterexample). -/
theorem c7_nonneg (n : Nat) (rdeck : List Suit) (goal : Suit) (ops : List (Op n))
    (hops : ∀ op ∈ ops, opPriceNonneg op) :
    ∀ i : Fin n, 0 ≤ ((run (initState n rdeck goal) ops).players i).dollars ∧
      ∀ s : Suit, 0 ≤ ((run (initState n rdeck goal) ops).players i).inventory s :=
  (nonneg_run ops (initState n rdeck goal) (nonneg_initState n rdeck goal) hops).1

/-- C7 witness: after a nonnegative-price trade from the dealt round,
player 0's cash is still nonnegative. -/
theorem c7_witness :
    0 ≤ ((run (initState 4 rdeck0 .diamonds) [.doTrade 1 0 .hearts 10]).players 0).dollars :=
  ((c7_nonneg 4 rdeck0 .diamonds [.doTrade 1 0 .hearts 10]
    (fun op hop => by
      rw [List.mem_singleton] at hop
      subst hop
      show (0 : Int) ≤ 10
      decide)) 0).1

/-- C7 counterexample: one _trade call at price −100 from the freshly
constructed round leaves player 0 (the giver, cash 60) at −40 < 0: the
giver-side cash mutation is applied with no guard, refuting the claim for
arbitrary reachable states. -/
theorem c7_counterexample :
    ((trade (initState 4 rdeck0 .diamonds) 1 0 .hearts (-100)).players 0).dollars = -40 ∧
    ((trade (initState 4 rdeck0 .diamonds) 1 0 .hearts (-100)).players 0).dollars < 0 := by
  refine ⟨by decide, by decide⟩

/-! ### C8 -/

lemma endRound_eq {n : Nat} (g : GameState n) (goal : Suit)
    (hgoal : g.goalSuit = some goal) :
    endRound g =
      match (findWinner g goal).1 with
      | none => none
      | some w =>
        some { (g.updatePlayer w fun p => { p with dollars := p.dollars + g.pot })
               with pot := 0 } := by
  unfold endRound
  rw [hgoal]

/-- C8: end_round raises (returns no state, pays nothing) when the goal
suit is unset, and likewise when no player holds a positive goal-suit
count ("no winner found"); otherwise it pays the entire pot to exactly one
player — the FIRST player in list order attaining the maximum goal-suit
holding (so a tie still yields a single deterministic winner) — and
resets the pot to 0. -/
theorem c8_settlement {n : Nat} (g : GameState n) :
    (g.goalSuit = none → endRound g = none) ∧
    (∀ goal : Suit, g.goalSuit = some goal →
      ((∀ i : Fin n, (g.players i).inventory goal ≤ 0) → endRound g = none) ∧
      (∀ w : Fin n, 0 < (g.players w).inventory goal →
        (∀ j : Fin n, (g.players j).inventory goal ≤ (g.players w).inventory goal) →
        (∀ j : Fin n, j.val < w.val →
          (g.players j).inventory goal < (g.players w).inventory goal) →
        endRound g =
          some { (g.updatePlayer w fun p => { p with dollars := p.dollars + g.pot })
                 with pot := 0 })) := by
  constructor
  · intro hnone
    unfold endRound
    rw [hnone]
  · intro goal hgoal
    constructor
    · intro hle
      have hfw : findWinner g goal = (none, 0) :=
        winnerScan_const g goal (List.finRange n) (none, 0) (fun i _ => hle i)
      rw [endRound_eq g goal hgoal, hfw]
    · intro w hw hmax hfirst
      have hfw := findWinner_first g goal w hw hmax hfirst
      rw [endRound_eq g goal hgoal, hfw]

/-- The tie state of Scenario F: players 1 and 2 both hold three diamonds
(the goal suit), players 0 and 3 hold one. -/
def gF : GameState 4 :=
  { players := fun i =>
      ⟨60, fun s => if s = .diamonds then (if i.val = 1 ∨ i.val = 2 then 3 else 1) else 0⟩
    book := fun _ => ⟨sentinelBid 4, sentinelAsk 4, 0⟩
    pot := 160
    goalSuit := some .diamonds
    trades := [] }

/-- C8 witness (Scenario F): in the tie state, settlement succeeds and the
single deterministic winner is player 1 — the first in list order among
the tied maximum holders — who absorbs the pot, the pot resetting to 0. -/
theorem c8_witness :
    endRound gF =
      some { (gF.updatePlayer 1 fun p => { p with dollars := p.dollars + gF.pot })
             with pot := 0 } :=
  ((c8_settlement gF).2 .diamonds rfl).2 1 (by decide) (by decide) (by decide)

/-! ### C10 -/

lemma goalOf_eq (s12 : Suit) : goalOf s12 = some s12.sameColorSuit := by
  cases s12 <;> rfl

lemma suitCounts_facts (s12 a b c : Suit)
    (hp : [a, b, c].Perm (Suit.all.filter fun s => s != s12)) :
    (suitCountsOf s12 [a, b, c] s12.sameColorSuit = 10 ∨
      suitCountsOf s12 [a, b, c] s12.sameColorSuit = 8) ∧
    suitCountsOf s12 [a, b, c] .hearts + suitCountsOf s12 [a, b, c] .diamonds +
      suitCountsOf s12 [a, b, c] .clubs + suitCountsOf s12 [a, b, c] .spades = 40 := by
  revert hp
  cases s12 <;> cases a <;> cases b <;> cases c <;> decide

lemma length_eq_sum_counts (l : List Suit) :
    l.length = l.count .hearts + l.count .diamonds + l.count .clubs + l.count .spades := by
  induction l with
  | nil => rfl
  | cons hd t ih =>
    cases hd <;> simp [List.count_cons, ih] <;> omega

lemma sum_chunk_counts (s : Suit) (per : Nat) :
    ∀ (m : Nat) (l : List Suit),
      (Finset.univ.sum fun i : Fin m => (((l.drop (i.val * per)).take per).count s : Int)) =
        ((l.take (m * per)).count s : Int) := by
  intro m
  induction m with
  | zero => intro l; simp
  | succ k ih =>
    intro l
    rw [Fin.sum_univ_succ]
    have hsum : (Finset.univ.sum fun i : Fin k =>
        (((l.drop ((i.succ : Fin (k + 1)).val * per)).take per).count s : Int)) =
        (Finset.univ.sum fun i : Fin k =>
        ((((l.drop per).drop (i.val * per)).take per).count s : Int)) := by
      apply Finset.sum_congr rfl
      intro i _
      have harith : (i.succ : Fin (k + 1)).val * per = per + i.val * per := by
        simp [Fin.val_succ]
        ring
      rw [harith, List.drop_drop]
    rw [hsum, ih (l.drop per)]
    have h0 : ((0 : Fin (k + 1)).val * per) = 0 := by simp
    rw [h0, List.drop_zero, ← Nat.cast_add, ← List.count_append, ← List.take_add]
    have harith2 : per + k * per = (k + 1) * per := by ring
    rw [harith2]

lemma invSum_initState (n : Nat) (rdeck : List Suit) (goal : Suit) (s : Suit)
    (hlen : rdeck.length = n * perPlayer n) :
    invSum (initState n rdeck goal) s = (rdeck.count s : Int) := by
  unfold invSum initState
  dsimp only
  rw [sum_chunk_counts s (perPlayer n) n rdeck, ← hlen, List.take_length]

/-- C10: for a round constructed with 4 or 5 players from the deck built by
_init_cards (counts {12, 10, 10, 8}, goal suit the same-color partner of
the 12-card suit, so the goal suit holds 10 or 8 cards), the players'
total holding of the goal suit equals that 10-or-8 count in every
reachable state (trades merely move cards), hence some player always holds
a goal card and the "No winner found" fatal branch of end_round is
unreachable: settlement always succeeds. -/
theorem c10_no_winner_unreachable (n : Nat) (hn : n = 4 ∨ n = 5)
    (suit12 goal : Suit) (others : List Suit)
    (hperm : others.Perm (Suit.all.filter fun s => s != suit12))
    (hgoal : goalOf suit12 = some goal)
    (rdeck : List Suit)
    (hdeck : ∀ s : Suit, rdeck.count s = suitCountsOf suit12 others s)
    (ops : List (Op n)) :
    invSum (run (initState n rdeck goal) ops) goal =
      (suitCountsOf suit12 others goal : Int) ∧
    (suitCountsOf suit12 others goal = 10 ∨ suitCountsOf suit12 others goal = 8) ∧
    (endRound (run (initState n rdeck goal) ops)).isSome := by
  have hlen3 : others.length = 3 := by
    rw [hperm.length_eq]
    cases suit12 <;> rfl
  obtain ⟨a, b, c, rfl⟩ := List.length_eq_three.mp hlen3
  have hgoal' : goal = suit12.sameColorSuit := by
    rw [goalOf_eq] at hgoal
    exact (Option.some.inj hgoal).symm
  have hfacts := suitCounts_facts suit12 a b c hperm
  have hcount : suitCountsOf suit12 [a, b, c] goal = 10 ∨
      suitCountsOf suit12 [a, b, c] goal = 8 := by
    rw [hgoal']
    exact hfacts.1
  have hlen : rdeck.length = n * perPlayer n := by
    rw [length_eq_sum_counts rdeck, hdeck .hearts, hdeck .diamonds, hdeck .clubs,
      hdeck .spades, hfacts.2]
    rcases hn with rfl | rfl <;> rfl
  have hsum : invSum (run (initState n rdeck goal) ops) goal =
      (suitCountsOf suit12 [a, b, c] goal : Int) := by
    rw [invSum_run, invSum_initState n rdeck goal goal hlen, hdeck goal]
  refine ⟨hsum, hcount, ?_⟩
  have hpos : 0 < invSum (run (initState n rdeck goal) ops) goal := by
    rw [hsum]
    rcases hcount with h | h <;> rw [h] <;> norm_num
  have hex : ∃ i : Fin n, 0 < ((run (initState n rdeck goal) ops).players i).inventory goal := by
    by_contra hcon
    push_neg at hcon
    have : invSum (run (initState n rdeck goal) ops) goal ≤ 0 :=
      Finset.sum_nonpos fun i _ => hcon i
    omega
  refine endRound_isSome_of_holder _ goal ?_ hex
  rw [goalSuit_run]
  rfl

/-- C10 witness: the concrete dealt 4-player round (12 hearts as the
12-card suit, goal diamonds with 10 cards) settles successfully after an
empty trading sequence. -/
theorem c10_witness :
    (endRound (run (initState 4 rdeck0 .diamonds) [])).isSome :=
  (c10_no_winner_unreachable 4 (Or.inl rfl) .hearts .diamonds
    [.diamonds, .clubs, .spades] (by decide) rfl rdeck0 (by decide) []).2.2
